import Mathlib

/-!
Verification model of the qiniu-webpack-plugin reconciliation engine
(src/src/index.js). Pure parts are embedded as executable Lean functions;
the asynchronous orchestration of `afterEmitCallback` is embedded by
passing the outcome of each external I/O operation in explicitly and
recording the externally visible effects (deletes issued, log written,
run outcome) of the control flow.
-/

namespace QiniuWebpack

/-! ## Set Reconciler -/

/-- Result of the reconciliation step: the files to upload and to delete. -/
structure CombineResult where
  uploadFiles : List String
  deleteFiles : List String
  deriving Repr, DecidableEq

/-- Modelled from the spec: the function `combineFiles` is imported from
`./utils`, a file absent from the sources; the spec defines
`reconcile(previous, current, candidate)` by
`uploadSet = candidate \ current` and
`deleteSet = previous \ (current ∪ candidate)`. -/
def combineFiles (prevFiles currentFiles releaseFiles : List String) : CombineResult :=
  { uploadFiles := releaseFiles.filter (fun f => !(currentFiles.contains f))
  , deleteFiles :=
      prevFiles.filter (fun f => !(currentFiles.contains f || releaseFiles.contains f)) }

/-! ## Remote log fetch (index.js `getLogFile`, lines 237-248) -/

/-- Outcome of the HTTP fetch of the persisted log: either the request
resolves to a JSON body whose `prev` and `current` fields may each be
present or missing, or the request rejects. -/
inductive FetchOutcome where
  | ok (prevField currentField : Option (List String))
  | err
  deriving Repr

/-- Embeds `getLogFile`: the request promise is returned as-is on success
and the attached catch handler substitutes
`{ prev: [], current: [], uploadTime: '' }` on any rejection. -/
def getLogFile : FetchOutcome → Option (List String) × Option (List String)
  | .ok p c => (p, c)
  | .err => (some [], some [])

/-! ## Orchestrator (index.js `afterEmitCallback`, lines 105-179) -/

/-- Persisted reconciliation log record, as written by `writeLogFile`
(index.js lines 224-232): `prev` and `current` file-name lists. -/
structure LogData where
  prev : List String
  current : List String
  deriving Repr, DecidableEq

/-- Outcome of one synchronization run: the callback completes (`done`) or
an awaited promise rejects and the async function aborts (`failed`). -/
inductive Outcome where
  | done
  | failed
  deriving Repr, DecidableEq

/-- Externally supplied results of the I/O operations a run performs:
whether the log fetch succeeds and with which fields, whether each
individual upload task succeeds, and whether the batch delete succeeds. -/
structure Env where
  fetch : FetchOutcome
  uploadOk : String → Bool
  deleteOk : Bool

/-- Externally visible effects of one run. -/
structure RunResult where
  outcome : Outcome
  deleteIssued : Bool
  logWritten : Option LogData

/-- Embeds the body of `afterEmitCallback` from the log fetch onward
(index.js lines 121-178), applied to the already-matched release file
list. The fetched fields default to `[]` when missing; `combineFiles`
produces the upload and delete lists; the uploads run under `mapLimit`
and any task rejection propagates through the await, aborting the run
before the delete/log block; deletes and the log write happen only when
`uploadFiles.length > 0`; `deleteOldFiles` awaits `qiniu.batchDelete`
with no catch, so a delete rejection aborts the run before
`writeLogFile`; `writeLogFile` persists
`{ prev: currentFiles, current: releaseFiles }`. -/
def afterEmitRun (env : Env) (releaseFiles : List String) : RunResult :=
  let fetched := getLogFile env.fetch
  let prevFiles := fetched.1.getD []
  let currentFiles := fetched.2.getD []
  let r := combineFiles prevFiles currentFiles releaseFiles
  if r.uploadFiles.any (fun f => !(env.uploadOk f)) then
    { outcome := .failed, deleteIssued := false, logWritten := none }
  else if r.uploadFiles.length > 0 then
    if r.deleteFiles.length > 0 then
      if env.deleteOk then
        { outcome := .done, deleteIssued := true
        , logWritten := some ⟨currentFiles, releaseFiles⟩ }
      else
        { outcome := .failed, deleteIssued := true, logWritten := none }
    else
      { outcome := .done, deleteIssued := false
      , logWritten := some ⟨currentFiles, releaseFiles⟩ }
  else
    { outcome := .done, deleteIssued := false, logWritten := none }

/-- An all-success environment whose fetch returns the given persisted log. -/
def envOf (log : LogData) : Env :=
  { fetch := .ok (some log.prev) (some log.current)
  , uploadOk := fun _ => true
  , deleteOk := true }

/-- The persisted log after one run with all I/O succeeding, starting from
persisted log `log`: the record written by the run, or `log` unchanged
when the run writes nothing. -/
def stepLog (log : LogData) (releaseFiles : List String) : LogData :=
  match (afterEmitRun (envOf log) releaseFiles).logWritten with
  | some l => l
  | none => log

/-- The persisted log after a sequence of runs with candidate sets `cands`. -/
def runAll (log : LogData) (cands : List (List String)) : LogData :=
  cands.foldl stepLog log

/-- Checks that every run in the sequence has a non-empty upload set at the
log state it actually sees. -/
def allUploadingB : LogData → List (List String) → Bool
  | _, [] => true
  | log, c :: cs =>
    decide ((combineFiles log.prev log.current c).uploadFiles ≠ []) &&
      allUploadingB (stepLog log c) cs

/-! ## Bounded Task Executor -/

/-- Modelled from the spec: the function `mapLimit` is imported from
`./utils`, a file absent from the sources. The spec's Bounded Task
Executor runs an ordered sequence of tasks with at most `limit` in
flight; a finishing task writes its result into its own slot and the
next pending task (if any) is started. `ExecState` is the executor's
state over `n` tasks: `started` counts the tasks already started (tasks
are started strictly in input order), `inFlight` lists the indices of
started-but-unfinished tasks, and `results` holds slot `i`'s outcome. -/
structure ExecState (α : Type) where
  started : Nat
  inFlight : List Nat
  results : List (Option α)
  deriving Repr

/-- Initial executor state: the first `min limit n` tasks are in flight,
all slots empty. -/
def execInit (α : Type) (tasks : List α) (limit : Nat) : ExecState α :=
  { started := min limit tasks.length
  , inFlight := List.range (min limit tasks.length)
  , results := List.replicate tasks.length none }

/-- One completion event: the in-flight task `choice` finishes, its result
(the value `tasks[choice]?`) is written into slot `choice`, and the next
pending task (if any) is started. A `choice` that is not in flight is
ignored. -/
def execStep (tasks : List String) (s : ExecState String) (choice : Nat) :
    ExecState String :=
  if choice ∈ s.inFlight then
    if s.started < tasks.length then
      { started := s.started + 1
      , inFlight := s.inFlight.erase choice ++ [s.started]
      , results := s.results.set choice tasks[choice]? }
    else
      { started := s.started
      , inFlight := s.inFlight.erase choice
      , results := s.results.set choice tasks[choice]? }
  else s

/-- Runs the executor under a completion schedule: the list of task
indices in the order in which the scheduler lets them finish. -/
def execRun (tasks : List String) (limit : Nat) (schedule : List Nat) :
    ExecState String :=
  schedule.foldl (execStep tasks) (execInit String tasks limit)

/-- Number of tasks whose result slot is filled, i.e. of finished tasks. -/
def finishedCount (s : ExecState String) : Nat :=
  s.results.countP Option.isSome

/-- Invariant of the executor state reachable from the initial state:
slot bookkeeping (in-flight and unstarted slots are empty, every filled
slot holds its own task's value) and the scheduling arithmetic (in-flight
indices are started, distinct, and exactly `min limit remaining` many). -/
def ExecInv (tasks : List String) (limit : Nat) (s : ExecState String) : Prop :=
  s.results.length = tasks.length ∧
  s.started ≤ tasks.length ∧
  s.inFlight.Nodup ∧
  (∀ i ∈ s.inFlight, i < s.started) ∧
  s.inFlight.length ≤ s.started ∧
  (∀ (i : Nat) (h : i < s.results.length), i ∈ s.inFlight → s.results[i] = none) ∧
  (∀ (i : Nat) (h : i < s.results.length), s.started ≤ i → s.results[i] = none) ∧
  (∀ (i : Nat) (h : i < s.results.length),
    s.results[i] = none ∨ s.results[i] = tasks[i]?) ∧
  finishedCount s = s.started - s.inFlight.length ∧
  s.inFlight.length = min limit (tasks.length - finishedCount s)

/-! ## Filename matcher (index.js `matchFiles`, lines 191-197) -/

/-- Modelled from the spec: `mm(fileNames, patterns, { matchBase: true })`
is the external micromatch collaborator; per the spec's Filename Matcher
interface it returns the input names matched by at least one pattern,
and an implicit match-everything pattern is always included by the
caller. The matcher's per-pattern predicate is a parameter. -/
def mm (matcher : String → String → Bool) (fileNames patterns : List String) :
    List String :=
  fileNames.filter (fun f => patterns.any (fun p => matcher p f))

/-- Embeds `matchFiles`: the configured pattern array (defaulting to `[]`)
receives `'*'` via `unshift` — mutating the array held in
`this.options` — and micromatch filters the file names against the
result. Returns the matched names together with the pattern array as it
is left in the options after the call. -/
def matchFilesRun (matcher : String → String → Bool)
    (optMatchFiles : List String) (fileNames : List String) :
    List String × List String :=
  let patterns := "*" :: optMatchFiles
  (mm matcher fileNames patterns, patterns)

/-! ## Constructor option merge (index.js lines 30-38, 199-205) -/

/-- The option fields carrying built-in defaults; `none` means the key is
absent from the given source object. -/
structure OptDict where
  uploadPath : Option String
  batch : Option Nat
  deriving Repr, DecidableEq

/-- One field of a JavaScript `Object.assign` merge: the right object's
value wins when the key is present there. -/
def assignField {α : Type} (a b : Option α) : Option α :=
  match b with
  | some v => some v
  | none => a

/-- Field-wise `Object.assign` of two option objects. -/
def assign (a b : OptDict) : OptDict :=
  { uploadPath := assignField a.uploadPath b.uploadPath
  , batch := assignField a.batch b.batch }

/-- The built-in defaults of the constructor. -/
def defaultOptions : OptDict :=
  { uploadPath := some "webpack_assets", batch := some 10 }

/-- Embeds `Object.assign(defaultOptions, options, fileOptions)` where
`fileOptions` is `getFileOptions()`: the loaded config-file object, or
`null` when the file cannot be loaded — and `Object.assign` skips a
`null` source, so it contributes nothing. -/
def mergedOptions (options : OptDict) (fileOptions : Option OptDict) : OptDict :=
  assign (assign defaultOptions options) (fileOptions.getD ⟨none, none⟩)

/-! ## Claim theorems -/

/-- C1: the reconciliation step returns `uploadFiles = candidate \ current`
and `deleteFiles = previous \ (current ∪ candidate)`; with `previous` and
`current` both empty it returns `uploadFiles = candidate` and
`deleteFiles = ∅`. -/
theorem C1_reconcile (prevFiles currentFiles releaseFiles : List String)
    (f : String) :
    (f ∈ (combineFiles prevFiles currentFiles releaseFiles).uploadFiles ↔
      f ∈ releaseFiles ∧ f ∉ currentFiles) ∧
    (f ∈ (combineFiles prevFiles currentFiles releaseFiles).deleteFiles ↔
      f ∈ prevFiles ∧ ¬ (f ∈ currentFiles ∨ f ∈ releaseFiles)) ∧
    combineFiles [] [] releaseFiles = ⟨releaseFiles, []⟩ := by
  refine ⟨?_, ?_, ?_⟩ <;> simp [combineFiles, List.mem_filter]

/-- A run with all I/O succeeding and a non-empty upload set slides the
persisted window: the new log is `{ prev := old current, current := candidate }`. -/
theorem stepLog_eq (log : LogData) (c : List String)
    (h : (combineFiles log.prev log.current c).uploadFiles ≠ []) :
    stepLog log c = ⟨log.current, c⟩ := by
  have h1 := List.length_pos.mpr h
  by_cases hd : (combineFiles log.prev log.current c).deleteFiles.length > 0 <;>
    simp [stepLog, afterEmitRun, envOf, getLogFile, h1, hd]

/-- The last element of a cons, with a default for the empty case, ignores
the default and falls back to the head. -/
theorem getLast?_getD_cons {α : Type} :
    ∀ (l : List α) (a d : α), (a :: l).getLast?.getD d = l.getLast?.getD a
  | [], _, _ => rfl
  | b :: bs, a, d => by
    rw [List.getLast?_cons_cons, getLast?_getD_cons bs b d, getLast?_getD_cons bs b a]

/-- After a non-empty sequence of runs that each upload something, the
persisted log holds the last candidate as `current` and the one before it
(or the initial `current`) as `prev`. -/
theorem runAll_window :
    ∀ (cands : List (List String)) (log : LogData) (hne : cands ≠ []),
      allUploadingB log cands = true →
      runAll log cands
        = ⟨cands.dropLast.getLastD log.current, cands.getLast hne⟩ := by
  intro cands
  induction cands with
  | nil => intro log hne _; exact absurd rfl hne
  | cons c cs ih =>
    intro log hne hall
    simp only [allUploadingB, Bool.and_eq_true, decide_eq_true_eq] at hall
    obtain ⟨h1, h2⟩ := hall
    cases cs with
    | nil =>
      simp [runAll, stepLog_eq log c h1, List.getLastD]
    | cons c2 cs2 =>
      have hrec := ih (stepLog log c) (by simp) h2
      have : runAll log (c :: c2 :: cs2) = runAll (stepLog log c) (c2 :: cs2) := by
        simp [runAll]
      rw [this, hrec, stepLog_eq log c h1]
      simp [List.dropLast_cons₂, List.getLastD_cons, List.getLast_cons]
      exact (getLast?_getD_cons ((c2 :: cs2).dropLast) c log.current).symm

/-- C2: every log record a run writes has `prev` equal to the fetched log's
`current` and `current` equal to the candidate set; consequently, after N
consecutive runs that each upload successfully, the persisted log has
`current = R_N` and `prev = R_{N-1}` (or the initial `current`, empty on
a first run, when N = 1). -/
theorem C2_windowSlide :
    (∀ (env : Env) (releaseFiles : List String) (l : LogData),
        (afterEmitRun env releaseFiles).logWritten = some l →
        l.prev = (getLogFile env.fetch).2.getD [] ∧ l.current = releaseFiles) ∧
    (∀ (log : LogData) (cands : List (List String)) (hne : cands ≠ []),
        allUploadingB log cands = true →
        (runAll log cands).current = cands.getLast hne ∧
        (runAll log cands).prev = cands.dropLast.getLastD log.current) := by
  constructor
  · intro env releaseFiles l h
    simp only [afterEmitRun] at h
    repeat' split at h
    all_goals try simp_all
    all_goals (subst h; exact ⟨rfl, rfl⟩)
  · intro log cands hne hall
    rw [runAll_window cands log hne hall]
    exact ⟨rfl, rfl⟩

/-- Witness for C2 over two consecutive uploading runs from the empty log. -/
theorem C2_windowSlide_witness :
    allUploadingB ⟨[], []⟩ [["a"], ["b"]] = true ∧
    (runAll ⟨[], []⟩ [["a"], ["b"]]).current = ["b"] ∧
    (runAll ⟨[], []⟩ [["a"], ["b"]]).prev = ["a"] := by
  have h := C2_windowSlide.2 ⟨[], []⟩ [["a"], ["b"]] (by simp) (by decide)
  exact ⟨by decide, h.1, h.2⟩

/-- C3: when the computed upload set is empty, the run issues no delete,
writes no log record, and completes. -/
theorem C3_emptyUpload_noEffects (env : Env) (releaseFiles : List String)
    (h : (combineFiles ((getLogFile env.fetch).1.getD [])
        ((getLogFile env.fetch).2.getD []) releaseFiles).uploadFiles = []) :
    (afterEmitRun env releaseFiles).deleteIssued = false ∧
    (afterEmitRun env releaseFiles).logWritten = none ∧
    (afterEmitRun env releaseFiles).outcome = .done := by
  simp [afterEmitRun, h]

/-- Witness for C3 at a run whose candidate set equals the live set. -/
theorem C3_emptyUpload_noEffects_witness :
    (combineFiles ((getLogFile (FetchOutcome.ok (some []) (some ["a"]))).1.getD [])
        ((getLogFile (FetchOutcome.ok (some []) (some ["a"]))).2.getD [])
        ["a"]).uploadFiles = [] ∧
    ((afterEmitRun ⟨FetchOutcome.ok (some []) (some ["a"]), fun _ => true, true⟩
        ["a"]).deleteIssued = false ∧
      (afterEmitRun ⟨FetchOutcome.ok (some []) (some ["a"]), fun _ => true, true⟩
        ["a"]).logWritten = none ∧
      (afterEmitRun ⟨FetchOutcome.ok (some []) (some ["a"]), fun _ => true, true⟩
        ["a"]).outcome = .done) :=
  ⟨rfl, C3_emptyUpload_noEffects
    ⟨FetchOutcome.ok (some []) (some ["a"]), fun _ => true, true⟩ ["a"] rfl⟩

/-- C4: when at least one upload task fails, the run ends failed, no delete
is issued, and no log record is written. -/
theorem C4_uploadFailure_aborts (env : Env) (releaseFiles : List String)
    (h : ∃ f ∈ (combineFiles ((getLogFile env.fetch).1.getD [])
        ((getLogFile env.fetch).2.getD []) releaseFiles).uploadFiles,
        env.uploadOk f = false) :
    (afterEmitRun env releaseFiles).outcome = .failed ∧
    (afterEmitRun env releaseFiles).deleteIssued = false ∧
    (afterEmitRun env releaseFiles).logWritten = none := by
  have hany : ((combineFiles ((getLogFile env.fetch).1.getD [])
      ((getLogFile env.fetch).2.getD []) releaseFiles).uploadFiles.any
        (fun f => !(env.uploadOk f))) = true := by
    rcases h with ⟨f, hf, hfail⟩
    simp only [List.any_eq_true, Bool.not_eq_true']
    exact ⟨f, hf, hfail⟩
  simp [afterEmitRun, hany]

/-- Witness for C4 at a run with one failing upload. -/
theorem C4_uploadFailure_aborts_witness :
    (∃ f ∈ (combineFiles ((getLogFile FetchOutcome.err).1.getD [])
        ((getLogFile FetchOutcome.err).2.getD []) ["a"]).uploadFiles,
        (⟨FetchOutcome.err, fun _ => false, true⟩ : Env).uploadOk f = false) ∧
    ((afterEmitRun ⟨FetchOutcome.err, fun _ => false, true⟩ ["a"]).outcome
        = .failed ∧
      (afterEmitRun ⟨FetchOutcome.err, fun _ => false, true⟩ ["a"]).deleteIssued
        = false ∧
      (afterEmitRun ⟨FetchOutcome.err, fun _ => false, true⟩ ["a"]).logWritten
        = none) :=
  ⟨⟨"a", by simp [combineFiles, getLogFile], rfl⟩,
    C4_uploadFailure_aborts ⟨FetchOutcome.err, fun _ => false, true⟩ ["a"]
      ⟨"a", by simp [combineFiles, getLogFile], rfl⟩⟩

/-- C5 counterexample: a run whose uploads all succeed and whose batch
delete fails ends failed and writes no log record, refuting the claim
that such a run still reaches DONE with the log rewritten. -/
theorem C5_deleteFailure_counterexample :
    (afterEmitRun
        ⟨FetchOutcome.ok (some ["a"]) (some []), fun _ => true, false⟩
        ["b"]).outcome = .failed ∧
    (afterEmitRun
        ⟨FetchOutcome.ok (some ["a"]) (some []), fun _ => true, false⟩
        ["b"]).logWritten = none :=
  ⟨rfl, rfl⟩

/-- C5 amended: when all uploads succeed, the delete set is non-empty and
the batch delete fails, the delete is issued but the run aborts: it does
not complete and the new log record is not written. -/
theorem C5_deleteFailure_aborts (env : Env) (releaseFiles : List String)
    (hok : ((combineFiles ((getLogFile env.fetch).1.getD [])
        ((getLogFile env.fetch).2.getD []) releaseFiles).uploadFiles.any
          (fun f => !(env.uploadOk f))) = false)
    (hup : (combineFiles ((getLogFile env.fetch).1.getD [])
        ((getLogFile env.fetch).2.getD []) releaseFiles).uploadFiles ≠ [])
    (hdel : (combineFiles ((getLogFile env.fetch).1.getD [])
        ((getLogFile env.fetch).2.getD []) releaseFiles).deleteFiles ≠ [])
    (hfail : env.deleteOk = false) :
    (afterEmitRun env releaseFiles).outcome = .failed ∧
    (afterEmitRun env releaseFiles).deleteIssued = true ∧
    (afterEmitRun env releaseFiles).logWritten = none := by
  have h1 := List.length_pos.mpr hup
  have h2 := List.length_pos.mpr hdel
  simp [afterEmitRun, hok, hfail, h1, h2]

/-- Witness for the amended C5 at a concrete failing delete. -/
theorem C5_deleteFailure_aborts_witness :
    ((combineFiles
        ((getLogFile (FetchOutcome.ok (some ["a"]) (some []))).1.getD [])
        ((getLogFile (FetchOutcome.ok (some ["a"]) (some []))).2.getD [])
        ["b"]).uploadFiles.any
          (fun f => !((⟨FetchOutcome.ok (some ["a"]) (some []), fun _ => true,
            false⟩ : Env).uploadOk f))) = false ∧
    (afterEmitRun ⟨FetchOutcome.ok (some ["a"]) (some []), fun _ => true, false⟩
      ["b"]).outcome = .failed ∧
    (afterEmitRun ⟨FetchOutcome.ok (some ["a"]) (some []), fun _ => true, false⟩
      ["b"]).deleteIssued = true ∧
    (afterEmitRun ⟨FetchOutcome.ok (some ["a"]) (some []), fun _ => true, false⟩
      ["b"]).logWritten = none := by
  have h := C5_deleteFailure_aborts
    ⟨FetchOutcome.ok (some ["a"]) (some []), fun _ => true, false⟩ ["b"]
    rfl (by simp [combineFiles, getLogFile]) (by simp [combineFiles, getLogFile])
    rfl
  exact ⟨rfl, h.1, h.2.1, h.2.2⟩

/-- C6: a failed log fetch is replaced by the empty log, and the
reconciliation on the empty log yields `uploadSet = candidate`,
`deleteSet = ∅`; missing fields on a successful fetch likewise default
to empty lists. -/
theorem C6_failOpen (releaseFiles : List String) :
    getLogFile .err = (some [], some []) ∧
    ((getLogFile (.ok none none)).1.getD [] = [] ∧
      (getLogFile (.ok none none)).2.getD [] = []) ∧
    combineFiles ((getLogFile .err).1.getD []) ((getLogFile .err).2.getD [])
      releaseFiles = ⟨releaseFiles, []⟩ := by
  refine ⟨rfl, ⟨rfl, rfl⟩, ?_⟩
  simp [combineFiles, getLogFile]

/-- C9: with the micromatch guarantee that the pattern `'*'` matches every
name, `matchFiles` returns every input file name, and each call leaves
the options' pattern array with one more `'*'` prepended. -/
theorem C9_matchAll (matcher : String → String → Bool)
    (optMatchFiles fileNames : List String)
    (hstar : ∀ f, matcher "*" f = true) :
    (matchFilesRun matcher optMatchFiles fileNames).1 = fileNames ∧
    (matchFilesRun matcher optMatchFiles fileNames).2 = "*" :: optMatchFiles := by
  constructor
  · simp [matchFilesRun, mm, List.filter_eq_self, hstar]
  · rfl

/-- Witness for C9 with a concrete star-only matcher. -/
theorem C9_matchAll_witness :
    (∀ f, (fun p (_ : String) => p == "*") "*" f = true) ∧
    (matchFilesRun (fun p (_ : String) => p == "*") ["*.js"]
      ["a.js", "b.css"]).1 = ["a.js", "b.css"] ∧
    (matchFilesRun (fun p (_ : String) => p == "*") ["*.js"]
      ["a.js", "b.css"]).2 = "*" :: ["*.js"] :=
  ⟨fun _ => rfl,
    C9_matchAll (fun p (_ : String) => p == "*") ["*.js"] ["a.js", "b.css"]
      (fun _ => rfl)⟩

/-- C10: in `Object.assign(defaults, options, fileOptions)` the config-file
value wins over the constructor value, which wins over the defaults
`uploadPath = 'webpack_assets'` and `batch = 10`; an unloadable config
file contributes nothing. -/
theorem C10_optionPrecedence (options fileOpts : OptDict) :
    (∀ v, fileOpts.uploadPath = some v →
      (mergedOptions options (some fileOpts)).uploadPath = some v) ∧
    (fileOpts.uploadPath = none → options.uploadPath ≠ none →
      (mergedOptions options (some fileOpts)).uploadPath = options.uploadPath) ∧
    (fileOpts.uploadPath = none → options.uploadPath = none →
      (mergedOptions options (some fileOpts)).uploadPath
        = some "webpack_assets") ∧
    (∀ v, fileOpts.batch = some v →
      (mergedOptions options (some fileOpts)).batch = some v) ∧
    (fileOpts.batch = none → options.batch ≠ none →
      (mergedOptions options (some fileOpts)).batch = options.batch) ∧
    (fileOpts.batch = none → options.batch = none →
      (mergedOptions options (some fileOpts)).batch = some 10) ∧
    mergedOptions options none = assign defaultOptions options := by
  obtain ⟨ou, ob⟩ := options
  obtain ⟨fu, fb⟩ := fileOpts
  cases fu <;> cases fb <;> cases ou <;> cases ob <;>
    simp [mergedOptions, assign, assignField, defaultOptions]

/-- Witness for C10 at concrete option objects. -/
theorem C10_optionPrecedence_witness :
    ((⟨none, some 5⟩ : OptDict).uploadPath = none ∧
      (⟨some "p", none⟩ : OptDict).uploadPath ≠ none) ∧
    (mergedOptions ⟨some "p", none⟩ (some ⟨none, some 5⟩)).uploadPath
      = (⟨some "p", none⟩ : OptDict).uploadPath ∧
    (mergedOptions ⟨some "p", none⟩ (some ⟨none, some 5⟩)).batch = some 5 ∧
    mergedOptions ⟨some "p", none⟩ none
      = assign defaultOptions ⟨some "p", none⟩ := by
  have h := C10_optionPrecedence ⟨some "p", none⟩ ⟨none, some 5⟩
  exact ⟨⟨rfl, by simp⟩, h.2.1 rfl (by simp), h.2.2.2.1 5 rfl, h.2.2.2.2.2.2⟩

/-- Setting a slot that held `none` raises the filled-slot count by one
exactly when the new value is present. -/
theorem countP_isSome_set (l : List (Option String)) (i : Nat) (v : Option String)
    (h : i < l.length) (hnone : l[i] = none) :
    (l.set i v).countP Option.isSome
      = l.countP Option.isSome + (if v.isSome then 1 else 0) := by
  induction l generalizing i with
  | nil => exact absurd h (by simp)
  | cons a as ih =>
    cases i with
    | zero =>
      have ha : a = none := hnone
      subst ha
      simp [List.countP_cons]
    | succ n =>
      have hn : n < as.length := by simpa using h
      have hnone2 : as[n] = none := by simpa using hnone
      simp [List.countP_cons, ih n hn hnone2]
      ring

/-- One executor step preserves the executor invariant. -/
theorem execStep_inv (tasks : List String) (limit : Nat) (s : ExecState String)
    (choice : Nat) (h : ExecInv tasks limit s) :
    ExecInv tasks limit (execStep tasks s choice) := by
  obtain ⟨hlen, hst, hnd, hflt, hls, hinone, hunone, hslot, hcount, hmin⟩ := h
  unfold execStep
  by_cases hmem : choice ∈ s.inFlight
  case neg =>
    rw [if_neg hmem]
    exact ⟨hlen, hst, hnd, hflt, hls, hinone, hunone, hslot, hcount, hmin⟩
  case pos =>
    have hclt : choice < s.started := hflt choice hmem
    have hcn : choice < tasks.length := Nat.lt_of_lt_of_le hclt hst
    have hcres : choice < s.results.length := by rw [hlen]; exact hcn
    have hnonec : s.results[choice] = none := hinone choice hcres hmem
    have htask : tasks[choice]? = some tasks[choice] := List.getElem?_eq_getElem hcn
    have hL1 : 1 ≤ s.inFlight.length :=
      List.length_pos.mpr (List.ne_nil_of_mem hmem)
    have hLerase : (s.inFlight.erase choice).length = s.inFlight.length - 1 :=
      List.length_erase_of_mem hmem
    have hcount2 : (s.results.set choice tasks[choice]?).countP Option.isSome
        = finishedCount s + 1 := by
      rw [countP_isSome_set s.results choice _ hcres hnonec, htask]
      simp [finishedCount]
    rw [if_pos hmem]
    split
    case isTrue hlt =>
      unfold ExecInv finishedCount
      dsimp only
      refine ⟨by simp [hlen], by omega, ?_, ?_, ?_, ?_, ?_, ?_, ?_, ?_⟩
      · rw [List.nodup_append]
        refine ⟨hnd.erase choice, List.nodup_singleton _, ?_⟩
        intro a ha hb
        have hb2 : a = s.started := by simpa using hb
        have := hflt a (List.mem_of_mem_erase ha)
        omega
      · intro i hi
        rcases List.mem_append.mp hi with h1 | h1
        · exact Nat.lt_succ_of_lt (hflt i (List.mem_of_mem_erase h1))
        · have : i = s.started := by simpa using h1
          omega
      · simp only [List.length_append, List.length_singleton, hLerase]
        omega
      · intro i hres hi
        have hres2 : i < s.results.length := by simpa using hres
        rcases List.mem_append.mp hi with h1 | h1
        · obtain ⟨hne, hmem2⟩ := hnd.mem_erase_iff.mp h1
          exact (List.getElem_set_ne (Ne.symm hne) hres).trans (hinone i hres2 hmem2)
        · have hi2 : i = s.started := by simpa using h1
          subst hi2
          exact (List.getElem_set_ne (Nat.ne_of_lt hclt) hres).trans
            (hunone s.started hres2 (Nat.le_refl _))
      · intro i hres hle
        have hne : choice ≠ i := by omega
        exact (List.getElem_set_ne hne hres).trans
          (hunone i (by simpa using hres) (by omega))
      · intro i hres
        by_cases hic : choice = i
        · subst hic
          exact Or.inr (List.getElem_set_self hres)
        · rcases hslot i (by simpa using hres) with h0 | h0
          · exact Or.inl ((List.getElem_set_ne hic hres).trans h0)
          · exact Or.inr ((List.getElem_set_ne hic hres).trans h0)
      · rw [hcount2]
        simp only [List.length_append, List.length_singleton, hLerase]
        omega
      · rw [hcount2]
        simp only [List.length_append, List.length_singleton, hLerase]
        omega
    case isFalse hge =>
      unfold ExecInv finishedCount
      dsimp only
      refine ⟨by simp [hlen], hst, hnd.erase choice, ?_, ?_, ?_, ?_, ?_, ?_, ?_⟩
      · intro i hi
        exact hflt i (List.mem_of_mem_erase hi)
      · rw [hLerase]; omega
      · intro i hres hi
        obtain ⟨hne, hmem2⟩ := hnd.mem_erase_iff.mp hi
        exact (List.getElem_set_ne (Ne.symm hne) hres).trans
          (hinone i (by simpa using hres) hmem2)
      · intro i hres hle
        have hne : choice ≠ i := by omega
        exact (List.getElem_set_ne hne hres).trans
          (hunone i (by simpa using hres) hle)
      · intro i hres
        by_cases hic : choice = i
        · subst hic
          exact Or.inr (List.getElem_set_self hres)
        · rcases hslot i (by simpa using hres) with h0 | h0
          · exact Or.inl ((List.getElem_set_ne hic hres).trans h0)
          · exact Or.inr ((List.getElem_set_ne hic hres).trans h0)
      · rw [hcount2, hLerase]
        omega
      · rw [hcount2, hLerase]
        omega

/-- The initial executor state satisfies the invariant. -/
theorem execInit_inv (tasks : List String) (limit : Nat) :
    ExecInv tasks limit (execInit String tasks limit) := by
  have hzero :
      (List.replicate tasks.length (none : Option String)).countP Option.isSome
        = 0 := by
    simp [List.countP_eq_zero, List.mem_replicate]
  unfold ExecInv execInit finishedCount
  refine ⟨by simp, Nat.min_le_right _ _, List.nodup_range _, ?_, ?_, ?_, ?_, ?_,
    ?_, ?_⟩
  · intro i hi; exact List.mem_range.mp hi
  · simp
  · intro i h hi; simp
  · intro i h hle; simp
  · intro i h; exact Or.inl (by simp)
  · rw [hzero]; simp
  · rw [hzero]; simp

/-- Every state the executor reaches under any schedule satisfies the
invariant. -/
theorem execInv_run (tasks : List String) (limit : Nat) (schedule : List Nat) :
    ExecInv tasks limit (execRun tasks limit schedule) := by
  suffices h : ∀ (sch : List Nat) (s : ExecState String), ExecInv tasks limit s →
      ExecInv tasks limit (sch.foldl (execStep tasks) s) by
    exact h schedule _ (execInit_inv tasks limit)
  intro sch
  induction sch with
  | nil => exact fun s hs => hs
  | cons a as ih => exact fun s hs => ih _ (execStep_inv tasks limit s a hs)

/-- C7: under every completion schedule that finishes all tasks — whatever
the completion order — the executor's result sequence equals the task
sequence in input order: slot i holds task i's value. -/
theorem C7_resultOrder (tasks : List String) (limit : Nat) (schedule : List Nat)
    (h : (execRun tasks limit schedule).results.all Option.isSome = true) :
    (execRun tasks limit schedule).results = tasks.map some := by
  obtain ⟨hlen, -, -, -, -, -, -, hslot, -, -⟩ := execInv_run tasks limit schedule
  apply List.ext_getElem (by simp [hlen])
  intro n h1 h2
  have hn : n < tasks.length := by simpa using h2
  have hsome := List.all_eq_true.mp h _ (List.getElem_mem h1)
  rcases hslot n h1 with h0 | h0
  · rw [h0] at hsome; simp at hsome
  · rw [h0, List.getElem?_eq_getElem hn, List.getElem_map]

/-- Witness for C7: three tasks, limit 2, out-of-order completion. -/
theorem C7_resultOrder_witness :
    (execRun ["x", "y", "z"] 2 [1, 0, 2]).results.all Option.isSome = true ∧
    (execRun ["x", "y", "z"] 2 [1, 0, 2]).results = ["x", "y", "z"].map some :=
  ⟨by decide, C7_resultOrder ["x", "y", "z"] 2 [1, 0, 2] (by decide)⟩

/-- C8: at every state the executor reaches, at most `limit` tasks are in
flight, and exactly `min limit remaining` are, where `remaining` counts
the unfinished tasks; `limit = 1` keeps at most one task in flight. -/
theorem C8_concurrencyBound (tasks : List String) (limit : Nat)
    (schedule : List Nat) (hpos : 0 < limit) :
    (execRun tasks limit schedule).inFlight.length ≤ limit ∧
    (execRun tasks limit schedule).inFlight.length
      = min limit (tasks.length - finishedCount (execRun tasks limit schedule)) ∧
    (limit = 1 → (execRun tasks limit schedule).inFlight.length ≤ 1) := by
  obtain ⟨-, -, -, -, -, -, -, -, -, hmin⟩ := execInv_run tasks limit schedule
  refine ⟨?_, hmin, ?_⟩
  · rw [hmin]; exact Nat.min_le_left _ _
  · intro h1; rw [hmin, h1]; exact Nat.min_le_left _ _

/-- Witness for C8 at a concrete partial schedule. -/
theorem C8_concurrencyBound_witness :
    0 < 2 ∧
    ((execRun ["x", "y", "z"] 2 [1, 0]).inFlight.length ≤ 2 ∧
      (execRun ["x", "y", "z"] 2 [1, 0]).inFlight.length
        = min 2 (["x", "y", "z"].length
            - finishedCount (execRun ["x", "y", "z"] 2 [1, 0])) ∧
      (2 = 1 → (execRun ["x", "y", "z"] 2 [1, 0]).inFlight.length ≤ 1)) :=
  ⟨by decide, C8_concurrencyBound ["x", "y", "z"] 2 [1, 0] (by decide)⟩

end QiniuWebpack
